import Mathlib

/-!
# DevTrail — verification of the paginated multi-query aggregation engine

Shallow embedding of the two scripts `github-collaboration-export.py` and
`github-work-summary.py`.  The network layer is abstracted: every fetcher is a
pure function of the sequence of node lists (or page results) the remote API
would return for its query, and of the target `username` and the cutoff
`since`.  Timestamps are modelled as integers in a fixed, timezone-normalised
encoding: the scripts parse ISO-8601 strings into instants and only ever
compare them, so any order-isomorphic encoding is faithful.  A record author
is `Option String` (`none` = deleted/unknown account, rendered as the
"Unknown" sentinel exactly where the source does).
-/

namespace DevTrail

/-- A review comment node (`review.comments.nodes[i]` in `get_user_pr_reviews`). -/
structure ReviewComment where
  body : String
  path : String
  position : Int
  createdAt : Int
deriving DecidableEq, Repr

/-- A review node: `reviews(first: 10, author: $username).nodes[i]`.
`commentNodes` is the embedded (first page of) comment nodes,
`commentsTotalCount` the server-reported `comments.totalCount`. -/
structure Review where
  state : String
  body : String
  createdAt : Int
  url : String
  commentNodes : List ReviewComment
  commentsTotalCount : Nat
deriving DecidableEq, Repr

/-- A PR/issue comment node (`comments(first: 30).nodes[i]`). -/
structure Comment where
  author : Option String
  body : String
  createdAt : Int
  url : String
deriving DecidableEq, Repr

/-- A pull-request node as returned by the `get_user_pr_reviews` query
(embedded review list scoped to the target author). -/
structure ReviewPRNode where
  number : Nat
  title : String
  url : String
  createdAt : Int
  author : Option String
  reviews : List Review
deriving DecidableEq, Repr

/-- A pull-request node as returned by the `get_prs_with_user_comments` and
`get_user_pr_comment_threads` queries (embedded comment list). -/
structure CommentPRNode where
  number : Nat
  title : String
  url : String
  createdAt : Int
  author : Option String
  comments : List Comment
deriving DecidableEq, Repr

/-- An issue node as returned by the `get_issue_discussions` query. -/
structure IssueNode where
  number : Nat
  title : String
  url : String
  createdAt : Int
  author : Option String
  comments : List Comment
deriving DecidableEq, Repr

/-- An entry of the `pr_reviews` bucket (the dict built at
`github-collaboration-export.py:211-222`). -/
structure ReviewedPR where
  pr_number : Nat
  pr_title : String
  pr_url : String
  pr_author : String
  review_state : String
  review_body : String
  review_url : String
  created_at : Int
  review_comments : List ReviewComment
  review_comments_count : Nat
deriving DecidableEq, Repr

/-- An entry of the `commented_prs` bucket (lines 301-308). -/
structure CommentedPR where
  pr_number : Nat
  pr_title : String
  pr_url : String
  pr_author : String
  comments : List Comment
  comment_count : Nat
deriving DecidableEq, Repr

/-- One element of a `discussion_threads` list (lines 388-391). -/
structure ThreadEntry where
  comment : Comment
  comment_author : String
deriving DecidableEq, Repr

/-- An entry of the `pr_discussion_threads` bucket (lines 394-401). -/
structure PRThreads where
  pr_number : Nat
  pr_title : String
  pr_url : String
  created_at : Int
  discussion_threads : List ThreadEntry
  thread_count : Nat
deriving DecidableEq, Repr

/-- An entry of the `issue_discussions` bucket (lines 482-490).  The Python
value `issue['author'] and issue['author']['login'] == username` is falsy
(`None`/`False`) exactly when the Boolean here is `false`. -/
structure DiscussedIssue where
  issue_number : Nat
  issue_title : String
  issue_url : String
  issue_author : String
  is_authored_by_user : Bool
  comments : List Comment
  comment_count : Nat
deriving DecidableEq, Repr

/-- The record appended at lines 211-222 for a qualifying (pr, review) pair. -/
def mkReviewedPR (pr : ReviewPRNode) (review : Review) : ReviewedPR :=
  { pr_number := pr.number
    pr_title := pr.title
    pr_url := pr.url
    pr_author := pr.author.getD "Unknown"
    review_state := review.state
    review_body := review.body
    review_url := review.url
    created_at := review.createdAt
    review_comments := review.commentNodes
    review_comments_count := review.commentsTotalCount }

/-- `get_user_pr_reviews` (lines 142-232): walks all PR nodes across pages
(the while loop has no early stop and appends per node, so it equals a pass
over the concatenation of all pages' nodes); for each PR not authored by the
user (absent author included), appends one record per embedded review whose
`createdAt` passes the cutoff. -/
def get_user_pr_reviews (username : String) (since : Int)
    (prs : List ReviewPRNode) : List ReviewedPR :=
  prs.flatMap fun pr =>
    if pr.author = some username then []
    else
      pr.reviews.filterMap fun review =>
        if since ≤ review.createdAt then some (mkReviewedPR pr review) else none

/-- The user-comment accumulation loop shared by lines 293-298 and 473-478:
the comments authored by the user whose `createdAt` passes the cutoff, in
order. -/
def userComments (username : String) (since : Int) (comments : List Comment) : List Comment :=
  comments.filter fun c => decide (c.author = some username ∧ since ≤ c.createdAt)

/-- The record appended at lines 301-308. -/
def mkCommentedPR (pr : CommentPRNode) (user_comments : List Comment) : CommentedPR :=
  { pr_number := pr.number
    pr_title := pr.title
    pr_url := pr.url
    pr_author := pr.author.getD "Unknown"
    comments := user_comments
    comment_count := user_comments.length }

/-- `get_prs_with_user_comments` (lines 234-317): skips PRs authored by the
user; keeps the PR's comments authored by the user that pass the cutoff;
emits a record only when that list is non-empty. -/
def get_prs_with_user_comments (username : String) (since : Int)
    (prs : List CommentPRNode) : List CommentedPR :=
  prs.filterMap fun pr =>
    if pr.author = some username then none
    else
      let user_comments := userComments username since pr.comments
      if user_comments.isEmpty then none
      else some (mkCommentedPR pr user_comments)

/-- The record appended at lines 394-401. -/
def mkPRThreads (pr : CommentPRNode) (discussion_threads : List ThreadEntry) : PRThreads :=
  { pr_number := pr.number
    pr_title := pr.title
    pr_url := pr.url
    created_at := pr.createdAt
    discussion_threads := discussion_threads
    thread_count := discussion_threads.length }

/-- The thread accumulation loop of lines 381-391: comments with a present
author different from the user whose `createdAt` passes the cutoff. -/
def discussionThreads (username : String) (since : Int) (comments : List Comment) :
    List ThreadEntry :=
  comments.filterMap fun c =>
    match c.author with
    | some a =>
        if a ≠ username ∧ since ≤ c.createdAt then
          some ({ comment := c, comment_author := a } : ThreadEntry)
        else none
    | none => none

/-- `get_user_pr_comment_threads` (lines 319-410): only PRs authored by the
user whose own `createdAt` passes the cutoff; collects comments with a
present author different from the user that pass the cutoff; emits a record
only when that list is non-empty. -/
def get_user_pr_comment_threads (username : String) (since : Int)
    (prs : List CommentPRNode) : List PRThreads :=
  prs.filterMap fun pr =>
    if pr.author = some username then
      if since ≤ pr.createdAt then
        let discussion_threads := discussionThreads username since pr.comments
        if discussion_threads.isEmpty then none
        else some (mkPRThreads pr discussion_threads)
      else none
    else none

/-- The record appended at lines 482-490. -/
def mkDiscussedIssue (issue : IssueNode) (is_authored_by_user : Bool)
    (user_comments : List Comment) : DiscussedIssue :=
  { issue_number := issue.number
    issue_title := issue.title
    issue_url := issue.url
    issue_author := issue.author.getD "Unknown"
    is_authored_by_user := is_authored_by_user
    comments := user_comments
    comment_count := user_comments.length }

/-- `get_issue_discussions` (lines 412-499): an issue is included when the
user authored it and its creation passes the cutoff, or when it has at least
one comment by the user passing the cutoff. -/
def get_issue_discussions (username : String) (since : Int)
    (issues : List IssueNode) : List DiscussedIssue :=
  issues.filterMap fun issue =>
    let is_authored_by_user : Bool := decide (issue.author = some username)
    let user_comments := userComments username since issue.comments
    if (is_authored_by_user = true ∧ since ≤ issue.createdAt) ∨ ¬ user_comments.isEmpty then
      some (mkDiscussedIssue issue is_authored_by_user user_comments)
    else none

/-- The statistics object of `get_collaboration_stats` (lines 534-549).  The
Python `collaborator_list` is `list(collaborators)` for a `set`; iteration
order of a Python set is an unspecified artifact, so the set itself is
modelled (`Finset`). -/
structure CollaborationStats where
  unique_collaborators : Nat
  collaborator_list : Finset String
  total_pr_reviews : Nat
  total_review_comments : Nat
  total_prs_commented_on : Nat
  total_pr_comments : Nat
  total_pr_discussion_threads : Nat
  total_issues_engaged_with : Nat
  total_issue_comments : Nat
  total_collaboration_touchpoints : Nat
deriving DecidableEq

/-- `get_collaboration_stats` (lines 501-549): builds the collaborator set by
the four insertion loops of the source, then the count and sum fields. -/
def get_collaboration_stats (pr_reviews : List ReviewedPR)
    (commented_prs : List CommentedPR) (pr_threads : List PRThreads)
    (issue_discussions : List DiscussedIssue) : CollaborationStats :=
  let fromReviews : Finset String :=
    pr_reviews.foldl
      (fun s review => if review.pr_author ≠ "Unknown" then insert review.pr_author s else s)
      (∅ : Finset String)
  let fromComments : Finset String :=
    commented_prs.foldl
      (fun s pr => if pr.pr_author ≠ "Unknown" then insert pr.pr_author s else s)
      fromReviews
  let fromThreads : Finset String :=
    pr_threads.foldl
      (fun s pr =>
        pr.discussion_threads.foldl
          (fun s thread =>
            if thread.comment_author ≠ "Unknown" then insert thread.comment_author s else s)
          s)
      fromComments
  let collaborators : Finset String :=
    issue_discussions.foldl
      (fun s issue =>
        if issue.issue_author ≠ "Unknown" ∧ ¬ issue.is_authored_by_user then
          insert issue.issue_author s
        else s)
      fromThreads
  let total_review_comments := (pr_reviews.map fun r => r.review_comments_count).sum
  let total_pr_comments := (commented_prs.map fun p => p.comment_count).sum
  let total_thread_replies := (pr_threads.map fun p => p.thread_count).sum
  let total_issue_comments := (issue_discussions.map fun i => i.comment_count).sum
  { unique_collaborators := collaborators.card
    collaborator_list := collaborators
    total_pr_reviews := pr_reviews.length
    total_review_comments := total_review_comments
    total_prs_commented_on := commented_prs.length
    total_pr_comments := total_pr_comments
    total_pr_discussion_threads := total_thread_replies
    total_issues_engaged_with := issue_discussions.length
    total_issue_comments := total_issue_comments
    total_collaboration_touchpoints :=
      pr_reviews.length + total_review_comments + total_pr_comments +
        total_thread_replies + total_issue_comments }

/-- A pull-request node of the `get_user_pull_requests` query in
`github-work-summary.py` (ordered `CREATED_AT DESC` by the query). -/
structure WorkPR where
  title : String
  body : String
  url : String
  createdAt : Int
  closedAt : Option Int
  mergedAt : Option Int
  state : String
  number : Nat
  author : Option String
  additions : Nat
  deletions : Nat
  changedFiles : Nat
deriving DecidableEq, Repr

/-- A commit node of the commit-history query in `github-work-summary.py`. -/
structure Commit where
  oid : String
  message : String
  committedDate : Int
  url : String
  additions : Nat
  deletions : Nat
  changedFiles : Nat
  parentsTotalCount : Nat
deriving DecidableEq, Repr

/-- The per-page loop body of `get_user_pull_requests`
(`github-work-summary.py:204-213`): returns the records appended from this
page and the value of `continue_fetching` afterwards.  A PR by the target
user within the window is kept; a PR older than the cutoff sets
`continue_fetching = False` and breaks out of the page. -/
def processPRPage (username : String) (since : Int) : List WorkPR → List WorkPR × Bool
  | [] => ([], true)
  | pr :: rest =>
    if pr.author = some username ∧ since ≤ pr.createdAt then
      let r := processPRPage username since rest
      (pr :: r.1, r.2)
    else if pr.createdAt < since then ([], false)
    else processPRPage username since rest

/-- `get_user_pull_requests` (lines 151-222).  The feed is the sequence of
page results the server would hand back for successive cursors; each element
is either a raised failure of the query runner (`Except.error`) or a page of
nodes; an exhausted feed is `hasNextPage = false`.  Returns the accumulated
`all_prs` (or the propagated failure) together with the number of page
fetches performed. -/
def get_user_pull_requests (username : String) (since : Int) :
    List (Except String (List WorkPR)) → Except String (List WorkPR) × Nat
  | [] => (Except.ok [], 0)
  | page :: rest =>
    match page with
    | Except.error e => (Except.error e, 1)
    | Except.ok nodes =>
      let p := processPRPage username since nodes
      if p.2 then
        let r := get_user_pull_requests username since rest
        (r.1.map fun l => p.1 ++ l, r.2 + 1)
      else (Except.ok p.1, 1)

/-- The per-email pagination loop of `get_user_commits` (lines 268-300): a
page that raises is caught (`except` at line 298) — the message is printed,
`has_next_page` is set to `False`, and the commits accumulated so far are
kept.  A missing repository/defaultBranchRef ends the probe the same way
(line 285's `break`). -/
def collectProbe : List (Except String (List Commit)) → List Commit
  | [] => []
  | Except.error _ :: _ => []
  | Except.ok commits :: rest => commits ++ collectProbe rest

/-- The dedup loop of `get_user_commits` (lines 302-309), with the `seen_oids`
set carried as the list of oids added so far. -/
def dedupCommits : List Commit → List String → List Commit
  | [], _ => []
  | commit :: rest, seen_oids =>
    if commit.oid ∈ seen_oids then dedupCommits rest seen_oids
    else commit :: dedupCommits rest (commit.oid :: seen_oids)

/-- `get_user_commits` (lines 224-312): runs the two email probes
(`username@users.noreply.github.com`, then the literal username), concatenates
their results into `all_commits`, and deduplicates by oid.  Note that this
function cannot fail: probe failures are swallowed by `collectProbe`. -/
def get_user_commits (probe_noreply probe_literal : List (Except String (List Commit))) :
    List Commit :=
  dedupCommits (collectProbe probe_noreply ++ collectProbe probe_literal) []

/-- The report object of `github-work-summary.py:349-361` (fields outside the
modelled core — repository metadata, wall-clock strings — omitted). -/
structure WorkSummaryReport where
  username : String
  since_date : Int
  total_pull_requests : Nat
  total_commits : Nat
  pull_requests : List WorkPR
  commits : List Commit
deriving DecidableEq, Repr

/-- The `try` block of `main` in `github-work-summary.py` (lines 338-372): a
failure raised by `get_user_pull_requests` reaches the `except` handler and
the run exits with no report written (`Except.error`); otherwise the commits
are fetched and the report object is produced. -/
def work_summary_main (username : String) (since : Int)
    (prFeed : List (Except String (List WorkPR)))
    (probe_noreply probe_literal : List (Except String (List Commit))) :
    Except String WorkSummaryReport :=
  match (get_user_pull_requests username since prFeed).1 with
  | Except.error e => Except.error e
  | Except.ok pull_requests =>
    let commits := get_user_commits probe_noreply probe_literal
    Except.ok
      { username := username
        since_date := since
        total_pull_requests := pull_requests.length
        total_commits := commits.length
        pull_requests := pull_requests
        commits := commits }

/-! ## Inversion lemmas for the collaboration-export fetchers -/

lemma mem_userComments (username : String) (since : Int) (comments : List Comment)
    (c : Comment) :
    c ∈ userComments username since comments ↔
      c ∈ comments ∧ c.author = some username ∧ since ≤ c.createdAt := by
  simp [userComments, List.mem_filter, decide_eq_true_iff, and_assoc]

lemma mem_discussionThreads (username : String) (since : Int) (comments : List Comment)
    (t : ThreadEntry) :
    t ∈ discussionThreads username since comments ↔
      t.comment ∈ comments ∧ t.comment.author = some t.comment_author ∧
        t.comment_author ≠ username ∧ since ≤ t.comment.createdAt := by
  unfold discussionThreads
  rw [List.mem_filterMap]
  constructor
  · rintro ⟨c, hc, heq⟩
    match ha : c.author with
    | none => rw [ha] at heq; simp at heq
    | some a =>
      simp only [ha] at heq
      by_cases hcond : a ≠ username ∧ since ≤ c.createdAt
      · rw [if_pos hcond] at heq
        cases Option.some.inj heq
        exact ⟨hc, ha, hcond.1, hcond.2⟩
      · rw [if_neg hcond] at heq; simp at heq
  · rintro ⟨hc, ha, hne, hd⟩
    refine ⟨t.comment, hc, ?_⟩
    simp only [ha]
    rw [if_pos ⟨hne, hd⟩]

lemma mem_get_user_pr_reviews (username : String) (since : Int)
    (prs : List ReviewPRNode) (e : ReviewedPR) :
    e ∈ get_user_pr_reviews username since prs ↔
      ∃ pr ∈ prs, ¬ pr.author = some username ∧
        ∃ review ∈ pr.reviews, since ≤ review.createdAt ∧ e = mkReviewedPR pr review := by
  unfold get_user_pr_reviews
  rw [List.mem_flatMap]
  constructor
  · rintro ⟨pr, hpr, he⟩
    by_cases h : pr.author = some username
    · rw [if_pos h] at he; simp at he
    · rw [if_neg h] at he
      rcases List.mem_filterMap.mp he with ⟨review, hrev, hsome⟩
      by_cases hd : since ≤ review.createdAt
      · rw [if_pos hd] at hsome
        exact ⟨pr, hpr, h, review, hrev, hd, (Option.some.inj hsome).symm⟩
      · rw [if_neg hd] at hsome; simp at hsome
  · rintro ⟨pr, hpr, h, review, hrev, hd, he⟩
    refine ⟨pr, hpr, ?_⟩
    rw [if_neg h]
    exact List.mem_filterMap.mpr ⟨review, hrev, by rw [if_pos hd, he]⟩

lemma mem_get_prs_with_user_comments (username : String) (since : Int)
    (prs : List CommentPRNode) (e : CommentedPR) :
    e ∈ get_prs_with_user_comments username since prs ↔
      ∃ pr ∈ prs, ¬ pr.author = some username ∧
        userComments username since pr.comments ≠ [] ∧
        e = mkCommentedPR pr (userComments username since pr.comments) := by
  unfold get_prs_with_user_comments
  rw [List.mem_filterMap]
  constructor
  · rintro ⟨pr, hpr, he⟩
    by_cases h : pr.author = some username
    · rw [if_pos h] at he; exact absurd he (by simp)
    · rw [if_neg h] at he
      by_cases hemp : (userComments username since pr.comments).isEmpty
      · simp only [hemp, if_pos] at he; exact absurd he (by simp)
      · simp only [hemp, Bool.false_eq_true, if_false] at he
        refine ⟨pr, hpr, h, ?_, (Option.some.inj he).symm⟩
        intro hnil
        exact hemp (by rw [hnil]; rfl)
  · rintro ⟨pr, hpr, h, hne, he⟩
    refine ⟨pr, hpr, ?_⟩
    rw [if_neg h]
    have hemp : (userComments username since pr.comments).isEmpty = false := by
      cases hval : userComments username since pr.comments with
      | nil => exact absurd hval hne
      | cons a l => rfl
    simp only [hemp, Bool.false_eq_true, if_false, he]

lemma mem_get_user_pr_comment_threads (username : String) (since : Int)
    (prs : List CommentPRNode) (e : PRThreads) :
    e ∈ get_user_pr_comment_threads username since prs ↔
      ∃ pr ∈ prs, pr.author = some username ∧ since ≤ pr.createdAt ∧
        discussionThreads username since pr.comments ≠ [] ∧
        e = mkPRThreads pr (discussionThreads username since pr.comments) := by
  unfold get_user_pr_comment_threads
  rw [List.mem_filterMap]
  constructor
  · rintro ⟨pr, hpr, he⟩
    by_cases h : pr.author = some username
    · rw [if_pos h] at he
      by_cases hd : since ≤ pr.createdAt
      · rw [if_pos hd] at he
        by_cases hemp : (discussionThreads username since pr.comments).isEmpty
        · simp only [hemp, if_pos] at he; exact absurd he (by simp)
        · simp only [hemp, Bool.false_eq_true, if_false] at he
          refine ⟨pr, hpr, h, hd, ?_, (Option.some.inj he).symm⟩
          intro hnil
          exact hemp (by rw [hnil]; rfl)
      · rw [if_neg hd] at he; exact absurd he (by simp)
    · rw [if_neg h] at he; exact absurd he (by simp)
  · rintro ⟨pr, hpr, h, hd, hne, he⟩
    refine ⟨pr, hpr, ?_⟩
    rw [if_pos h, if_pos hd]
    have hemp : (discussionThreads username since pr.comments).isEmpty = false := by
      cases hval : discussionThreads username since pr.comments with
      | nil => exact absurd hval hne
      | cons a l => rfl
    simp only [hemp, Bool.false_eq_true, if_false, he]

lemma mem_get_issue_discussions (username : String) (since : Int)
    (issues : List IssueNode) (e : DiscussedIssue) :
    e ∈ get_issue_discussions username since issues ↔
      ∃ issue ∈ issues,
        ((issue.author = some username ∧ since ≤ issue.createdAt) ∨
          userComments username since issue.comments ≠ []) ∧
        e = mkDiscussedIssue issue (decide (issue.author = some username))
              (userComments username since issue.comments) := by
  unfold get_issue_discussions
  rw [List.mem_filterMap]
  have hcond : ∀ issue : IssueNode,
      ((decide (issue.author = some username) = true ∧ since ≤ issue.createdAt) ∨
        ¬ (userComments username since issue.comments).isEmpty = true) ↔
      ((issue.author = some username ∧ since ≤ issue.createdAt) ∨
        userComments username since issue.comments ≠ []) := by
    intro issue
    rw [decide_eq_true_iff, List.isEmpty_iff]
  constructor
  · rintro ⟨issue, hissue, he⟩
    by_cases h : (decide (issue.author = some username) = true ∧ since ≤ issue.createdAt) ∨
        ¬ (userComments username since issue.comments).isEmpty = true
    · rw [if_pos h] at he
      exact ⟨issue, hissue, (hcond issue).mp h, (Option.some.inj he).symm⟩
    · rw [if_neg h] at he; exact absurd he (by simp)
  · rintro ⟨issue, hissue, h, he⟩
    refine ⟨issue, hissue, ?_⟩
    rw [if_pos ((hcond issue).mpr h), he]

/-! ## Lemmas about the work-summary pagination driver and commit probes -/

lemma processPRPage_mem (username : String) (since : Int) :
    ∀ (page : List WorkPR) (pr : WorkPR), pr ∈ (processPRPage username since page).1 →
      pr ∈ page ∧ pr.author = some username ∧ since ≤ pr.createdAt := by
  intro page
  induction page with
  | nil => intro pr h; simp [processPRPage] at h
  | cons q rest ih =>
    intro pr h
    simp only [processPRPage] at h
    split at h
    · rename_i hcond
      rcases List.mem_cons.mp h with h' | h'
      · subst h'
        exact ⟨List.mem_cons_self _ _, hcond⟩
      · rcases ih pr h' with ⟨hm, hrest⟩
        exact ⟨List.mem_cons_of_mem _ hm, hrest⟩
    · split at h
      · simp at h
      · rcases ih pr h with ⟨hm, hrest⟩
        exact ⟨List.mem_cons_of_mem _ hm, hrest⟩

lemma processPRPage_stop_of_old (username : String) (since : Int) :
    ∀ (page : List WorkPR), (∃ pr ∈ page, pr.createdAt < since) →
      (processPRPage username since page).2 = false := by
  intro page
  induction page with
  | nil => intro h; simp at h
  | cons pr rest ih =>
    intro h
    simp only [processPRPage]
    split
    · rename_i hcond
      show (processPRPage username since rest).2 = false
      apply ih
      rcases h with ⟨q, hq, hqo⟩
      rcases List.mem_cons.mp hq with h' | h'
      · exact absurd hqo (by rw [h']; exact not_lt.mpr hcond.2)
      · exact ⟨q, h', hqo⟩
    · split
      · rfl
      · rename_i hcond hnotold
        apply ih
        rcases h with ⟨q, hq, hqo⟩
        rcases List.mem_cons.mp hq with h' | h'
        · exact absurd (h' ▸ hqo) hnotold
        · exact ⟨q, h', hqo⟩

lemma get_user_pull_requests_count_le (username : String) (since : Int) :
    ∀ (pages : List (List WorkPR)) (i : Nat) (hi : i < pages.length),
      (∃ pr ∈ pages.get ⟨i, hi⟩, pr.createdAt < since) →
      (get_user_pull_requests username since (pages.map Except.ok)).2 ≤ i + 1 := by
  intro pages
  induction pages with
  | nil => intro i hi; simp at hi
  | cons page rest ih =>
    intro i hi hold
    match i with
    | 0 =>
      have hstop := processPRPage_stop_of_old username since page hold
      simp only [List.map_cons, get_user_pull_requests, hstop, Bool.false_eq_true, if_false]
      exact Nat.le_refl 1
    | Nat.succ j =>
      have hj : j < rest.length := Nat.lt_of_succ_lt_succ hi
      have hrec := ih j hj hold
      simp only [List.map_cons, get_user_pull_requests]
      split
      · exact Nat.succ_le_succ hrec
      · exact Nat.le_add_left 1 (j + 1)

lemma get_user_pull_requests_mem (username : String) (since : Int) :
    ∀ (feed : List (Except String (List WorkPR))) (prs : List WorkPR),
      (get_user_pull_requests username since feed).1 = Except.ok prs →
      ∀ pr ∈ prs, pr.author = some username ∧ since ≤ pr.createdAt := by
  intro feed
  induction feed with
  | nil =>
    intro prs h pr hpr
    simp only [get_user_pull_requests] at h
    cases Except.ok.inj h
    simp at hpr
  | cons page rest ih =>
    intro prs h pr hpr
    match page with
    | Except.error e => simp [get_user_pull_requests] at h
    | Except.ok nodes =>
      simp only [get_user_pull_requests] at h
      split at h
      · match hrec : (get_user_pull_requests username since rest).1 with
        | Except.error e => rw [hrec] at h; simp [Except.map] at h
        | Except.ok l =>
          rw [hrec] at h
          simp only [Except.map] at h
          cases Except.ok.inj h
          rcases List.mem_append.mp hpr with h' | h'
          · exact (processPRPage_mem username since nodes pr h').2
          · exact ih l hrec pr h'
      · cases Except.ok.inj h
        exact (processPRPage_mem username since nodes pr hpr).2

lemma get_user_pull_requests_ok (username : String) (since : Int) :
    ∀ (feed : List (Except String (List WorkPR))),
      (∀ p ∈ feed, ∃ nodes, p = Except.ok nodes) →
      ∃ prs, (get_user_pull_requests username since feed).1 = Except.ok prs := by
  intro feed
  induction feed with
  | nil => intro _; exact ⟨[], rfl⟩
  | cons page rest ih =>
    intro hall
    rcases hall page (List.mem_cons_self _ _) with ⟨nodes, hn⟩
    subst hn
    simp only [get_user_pull_requests]
    split
    · rcases ih (fun p hp => hall p (List.mem_cons_of_mem _ hp)) with ⟨prs, hprs⟩
      refine ⟨(processPRPage username since nodes).1 ++ prs, ?_⟩
      simp only [hprs, Except.map]
    · exact ⟨(processPRPage username since nodes).1, rfl⟩

lemma mem_collectProbe :
    ∀ (probe : List (Except String (List Commit))) (c : Commit),
      c ∈ collectProbe probe → ∃ nodes, Except.ok nodes ∈ probe ∧ c ∈ nodes := by
  intro probe
  induction probe with
  | nil => intro c hc; simp [collectProbe] at hc
  | cons p rest ih =>
    intro c hc
    match p with
    | Except.error e => simp [collectProbe] at hc
    | Except.ok nodes =>
      simp only [collectProbe, List.mem_append] at hc
      rcases hc with h | h
      · exact ⟨nodes, List.mem_cons_self _ _, h⟩
      · rcases ih c h with ⟨ns, hns, hcns⟩
        exact ⟨ns, List.mem_cons_of_mem _ hns, hcns⟩

/-! ## Lemmas about the aggregator's collaborator-set folds -/

lemma mem_foldl_insert {α : Type} (p : α → Prop) [DecidablePred p] (key : α → String) :
    ∀ (l : List α) (s : Finset String) (x : String),
      (x ∈ l.foldl (fun s a => if p a then insert (key a) s else s) s) ↔
        x ∈ s ∨ ∃ a ∈ l, p a ∧ key a = x := by
  intro l
  induction l with
  | nil => intro s x; simp
  | cons a rest ih =>
    intro s x
    simp only [List.foldl_cons]
    by_cases h : p a
    · rw [if_pos h, ih]
      simp only [Finset.mem_insert, List.mem_cons]
      constructor
      · rintro (⟨h1 | h1⟩ | ⟨b, hb, hpb, hkb⟩)
        · exact Or.inr ⟨a, Or.inl rfl, h, h1.symm⟩
        · exact Or.inl h1
        · exact Or.inr ⟨b, Or.inr hb, hpb, hkb⟩
      · rintro (h1 | ⟨b, hb | hb, hpb, hkb⟩)
        · exact Or.inl (Or.inr h1)
        · exact Or.inl (Or.inl (hb ▸ hkb).symm)
        · exact Or.inr ⟨b, hb, hpb, hkb⟩
    · rw [if_neg h, ih]
      simp only [List.mem_cons]
      constructor
      · rintro (h1 | ⟨b, hb, hpb, hkb⟩)
        · exact Or.inl h1
        · exact Or.inr ⟨b, Or.inr hb, hpb, hkb⟩
      · rintro (h1 | ⟨b, hb | hb, hpb, hkb⟩)
        · exact Or.inl h1
        · exact absurd (hb ▸ hpb) h
        · exact Or.inr ⟨b, hb, hpb, hkb⟩

lemma mem_foldl_insert_threads :
    ∀ (l : List PRThreads) (s : Finset String) (x : String),
      (x ∈ l.foldl
          (fun s pr =>
            pr.discussion_threads.foldl
              (fun s thread =>
                if thread.comment_author ≠ "Unknown" then insert thread.comment_author s else s)
              s)
          s) ↔
        x ∈ s ∨ ∃ e ∈ l, ∃ thread ∈ e.discussion_threads,
          thread.comment_author ≠ "Unknown" ∧ thread.comment_author = x := by
  intro l
  induction l with
  | nil => intro s x; simp
  | cons pr rest ih =>
    intro s x
    simp only [List.foldl_cons]
    rw [ih]
    rw [mem_foldl_insert (fun t : ThreadEntry => t.comment_author ≠ "Unknown")
      (fun t => t.comment_author) pr.discussion_threads s x]
    simp only [List.mem_cons]
    constructor
    · rintro ((h1 | ⟨t, ht, hpt, hkt⟩) | ⟨e, he, t, ht, hpt, hkt⟩)
      · exact Or.inl h1
      · exact Or.inr ⟨pr, Or.inl rfl, t, ht, hpt, hkt⟩
      · exact Or.inr ⟨e, Or.inr he, t, ht, hpt, hkt⟩
    · rintro (h1 | ⟨e, he | he, t, ht, hpt, hkt⟩)
      · exact Or.inl (Or.inl h1)
      · exact Or.inl (Or.inr ⟨t, he ▸ ht, hpt, hkt⟩)
      · exact Or.inr ⟨e, he, t, ht, hpt, hkt⟩

/-- Membership in the aggregator's collaborator set, read back through the
four insertion loops of `get_collaboration_stats`. -/
lemma mem_stats_collaborators (pr_reviews : List ReviewedPR)
    (commented_prs : List CommentedPR) (pr_threads : List PRThreads)
    (issue_discussions : List DiscussedIssue) (x : String) :
    x ∈ (get_collaboration_stats pr_reviews commented_prs pr_threads
          issue_discussions).collaborator_list ↔
      (∃ e ∈ pr_reviews, e.pr_author ≠ "Unknown" ∧ e.pr_author = x)
      ∨ (∃ e ∈ commented_prs, e.pr_author ≠ "Unknown" ∧ e.pr_author = x)
      ∨ (∃ e ∈ pr_threads, ∃ thread ∈ e.discussion_threads,
          thread.comment_author ≠ "Unknown" ∧ thread.comment_author = x)
      ∨ (∃ e ∈ issue_discussions,
          (e.issue_author ≠ "Unknown" ∧ ¬ e.is_authored_by_user) ∧ e.issue_author = x) := by
  show x ∈ (issue_discussions.foldl _ _) ↔ _
  rw [mem_foldl_insert
    (fun e : DiscussedIssue => e.issue_author ≠ "Unknown" ∧ ¬ e.is_authored_by_user)
    (fun e => e.issue_author) issue_discussions _ x]
  rw [mem_foldl_insert_threads pr_threads _ x]
  rw [mem_foldl_insert (fun e : CommentedPR => e.pr_author ≠ "Unknown")
    (fun e => e.pr_author) commented_prs _ x]
  rw [mem_foldl_insert (fun e : ReviewedPR => e.pr_author ≠ "Unknown")
    (fun e => e.pr_author) pr_reviews _ x]
  simp only [Finset.not_mem_empty, false_or]
  rw [or_assoc, or_assoc]

/-! ## Lemmas about the commit dedup loop -/

lemma dedupCommits_sublist : ∀ (l : List Commit) (seen : List String),
    (dedupCommits l seen).Sublist l := by
  intro l
  induction l with
  | nil => intro seen; simp [dedupCommits]
  | cons c rest ih =>
    intro seen
    simp only [dedupCommits]
    split
    · exact (ih seen).cons c
    · exact (ih (c.oid :: seen)).cons₂ c

lemma dedupCommits_countP_zero : ∀ (l : List Commit) (seen : List String) (k : String),
    k ∈ seen → (dedupCommits l seen).countP (fun c => c.oid == k) = 0 := by
  intro l
  induction l with
  | nil => intro seen k _; simp [dedupCommits]
  | cons c rest ih =>
    intro seen k hk
    simp only [dedupCommits]
    split
    · exact ih seen k hk
    · rename_i hc
      have hne : (c.oid == k) = false := by
        apply beq_eq_false_iff_ne.mpr
        intro h
        exact hc (h ▸ hk)
      rw [List.countP_cons, hne]
      simp [ih (c.oid :: seen) k (List.mem_cons_of_mem _ hk)]

lemma dedupCommits_countP_one : ∀ (l : List Commit) (seen : List String) (k : String),
    k ∉ seen → (∃ c ∈ l, c.oid = k) →
    (dedupCommits l seen).countP (fun c => c.oid == k) = 1 := by
  intro l
  induction l with
  | nil => intro seen k _ hex; simp at hex
  | cons c rest ih =>
    intro seen k hk hex
    simp only [dedupCommits]
    split
    · rename_i hc
      have hck : c.oid ≠ k := fun h => hk (h ▸ hc)
      apply ih seen k hk
      rcases hex with ⟨d, hd, hdk⟩
      rcases List.mem_cons.mp hd with h | h
      · exact absurd (h ▸ hdk) hck
      · exact ⟨d, h, hdk⟩
    · rename_i hc
      rw [List.countP_cons]
      by_cases hck : c.oid = k
      · have : (c.oid == k) = true := beq_iff_eq.mpr hck
        rw [this]
        simp [dedupCommits_countP_zero rest (c.oid :: seen) k (hck ▸ List.mem_cons_self c.oid seen)]
      · have : (c.oid == k) = false := beq_eq_false_iff_ne.mpr hck
        rw [this]
        simp only [if_neg Bool.false_ne_true, Nat.add_zero]
        apply ih (c.oid :: seen) k
        · intro h
          rcases List.mem_cons.mp h with h' | h'
          · exact hck h'.symm
          · exact hk h'
        · rcases hex with ⟨d, hd, hdk⟩
          rcases List.mem_cons.mp hd with h' | h'
          · exact absurd (h' ▸ hdk) hck
          · exact ⟨d, h', hdk⟩

lemma dedupCommits_find : ∀ (l : List Commit) (seen : List String) (k : String),
    k ∉ seen →
    (dedupCommits l seen).find? (fun c => c.oid == k) = l.find? (fun c => c.oid == k) := by
  intro l
  induction l with
  | nil => intro seen k _; simp [dedupCommits]
  | cons c rest ih =>
    intro seen k hk
    simp only [dedupCommits]
    split
    · rename_i hc
      have hck : (c.oid == k) = false :=
        beq_eq_false_iff_ne.mpr fun h => hk (h ▸ hc)
      rw [ih seen k hk]
      simp only [List.find?, hck]
    · rename_i hc
      by_cases hck : c.oid = k
      · have hb : (c.oid == k) = true := beq_iff_eq.mpr hck
        simp only [List.find?, hb]
      · have hb : (c.oid == k) = false := beq_eq_false_iff_ne.mpr hck
        simp only [List.find?, hb]
        apply ih
        intro h
        rcases List.mem_cons.mp h with h' | h'
        · exact hck h'.symm
        · exact hk h'

/-- C4: For any input sequence of commit records (the concatenation of all
email-probe results), the deduplicated output contains exactly one entry per
distinct oid key; for each key the first-seen record wins, and the relative
order of first occurrences is preserved (the output is a sublist of the
input). -/
theorem dedup_unique_first_seen_ordered (l : List Commit) :
    (dedupCommits l []).Sublist l
    ∧ (∀ k : String, (∃ c ∈ l, c.oid = k) →
        (dedupCommits l []).countP (fun c => c.oid == k) = 1)
    ∧ (∀ k : String,
        (dedupCommits l []).find? (fun c => c.oid == k) = l.find? (fun c => c.oid == k)) := by
  refine ⟨dedupCommits_sublist l [], ?_, ?_⟩
  · intro k hex
    exact dedupCommits_countP_one l [] k (List.not_mem_nil k) hex
  · intro k
    exact dedupCommits_find l [] k (List.not_mem_nil k)

/-- Witness for C4 at a concrete input: two probes both returned oid "abc123";
the merged list keeps exactly the first record. -/
theorem dedup_unique_first_seen_ordered_witness :
    (dedupCommits [⟨"abc123", "m1", 5, "u1", 1, 0, 1, 1⟩, ⟨"abc123", "m2", 6, "u2", 2, 0, 1, 1⟩] []).countP
      (fun c => c.oid == "abc123") = 1 :=
  (dedup_unique_first_seen_ordered
    [⟨"abc123", "m1", 5, "u1", 1, 0, 1, 1⟩, ⟨"abc123", "m2", 6, "u2", 2, 0, 1, 1⟩]).2.1
    "abc123" ⟨⟨"abc123", "m1", 5, "u1", 1, 0, 1, 1⟩, by simp⟩

/-! ## Concrete fixtures -/

def oldWorkPR : WorkPR :=
  { title := "old", body := "", url := "u", createdAt := 0, closedAt := none,
    mergedAt := none, state := "MERGED", number := 1, author := some "alice",
    additions := 1, deletions := 0, changedFiles := 1 }

def probeCommit : Commit :=
  { oid := "abc123", message := "fix", committedDate := 20, url := "cu",
    additions := 1, deletions := 0, changedFiles := 1, parentsTotalCount := 1 }

def oldIssue : IssueNode :=
  { number := 7, title := "stale", url := "iu", createdAt := 0, author := some "bob",
    comments := [{ author := some "alice", body := "ping", createdAt := 15, url := "icu" }] }

/-! ## C3 — early-stop correctness of the pagination driver -/

/-- C3: for a feed whose ordering is monotonically newest-first, the driver
never fetches a page strictly beyond the first page containing a record whose
`createdAt` is older than the cutoff: if page `i` contains such a record, at
most `i + 1` pages are fetched. -/
theorem early_stop_no_fetch_beyond_first_old_page (username : String) (since : Int)
    (pages : List (List WorkPR)) (i : Nat)
    (_hmono : List.Pairwise (fun a b => b.createdAt ≤ a.createdAt) pages.flatten)
    (hi : i < pages.length)
    (hold : ∃ pr ∈ pages.get ⟨i, hi⟩, pr.createdAt < since) :
    (get_user_pull_requests username since (pages.map Except.ok)).2 ≤ i + 1 :=
  get_user_pull_requests_count_le username since pages i hi hold

/-- Witness for C3: a two-page feed whose first page already contains a
record older than the cutoff; only one page is fetched. -/
theorem early_stop_no_fetch_beyond_first_old_page_witness :
    (get_user_pull_requests "alice" 10 ([[oldWorkPR], [oldWorkPR]].map Except.ok)).2 ≤ 0 + 1 :=
  early_stop_no_fetch_beyond_first_old_page "alice" 10 [[oldWorkPR], [oldWorkPR]] 0
    (by decide) (by decide) ⟨oldWorkPR, by decide, by decide⟩

/-! ## C2 — error propagation of the category fetches -/

/-- C2 counterexample: the second commit-probe page raises a runner failure
("HTTP 502"), yet the run completes and produces a report that keeps the
commit obtained from the first probe page — the failure neither propagates
nor aborts the run. -/
theorem fetch_error_aborts_run_counterexample :
    work_summary_main "alice" 10 [Except.ok []]
        [Except.ok [probeCommit], Except.error "HTTP 502"] []
      = Except.ok
          { username := "alice", since_date := 10, total_pull_requests := 0,
            total_commits := 1, pull_requests := [], commits := [probeCommit] } := by
  rfl

/-- C2 amended: a runner failure during the pull-request fetch propagates
untouched and the run produces no report; commit-probe failures are caught
per probe, so whenever every pull-request page succeeds the run produces a
report regardless of commit-probe failures. -/
theorem work_summary_error_propagation (username : String) (since : Int)
    (prFeed : List (Except String (List WorkPR)))
    (probe_noreply probe_literal : List (Except String (List Commit))) :
    (∀ e, (get_user_pull_requests username since prFeed).1 = Except.error e →
        work_summary_main username since prFeed probe_noreply probe_literal
          = Except.error e)
    ∧ ((∀ p ∈ prFeed, ∃ nodes, p = Except.ok nodes) →
        ∃ report, work_summary_main username since prFeed probe_noreply probe_literal
            = Except.ok report
          ∧ report.commits = get_user_commits probe_noreply probe_literal) := by
  constructor
  · intro e he
    unfold work_summary_main
    rw [he]
  · intro hall
    rcases get_user_pull_requests_ok username since prFeed hall with ⟨prs, hprs⟩
    refine ⟨{ username := username, since_date := since,
              total_pull_requests := prs.length,
              total_commits := (get_user_commits probe_noreply probe_literal).length,
              pull_requests := prs,
              commits := get_user_commits probe_noreply probe_literal }, ?_, rfl⟩
    unfold work_summary_main
    rw [hprs]

/-- Witness for C2 (amended): a first-page failure of the pull-request fetch
aborts the whole run with that failure. -/
theorem work_summary_error_propagation_witness :
    work_summary_main "alice" 10 [Except.error "HTTP 500"] [] [] = Except.error "HTTP 500" :=
  (work_summary_error_propagation "alice" 10 [Except.error "HTTP 500"] [] []).1
    "HTTP 500" (by rfl)

/-! ## C1 — the cutoff invariant over the final buckets -/

/-- C1 counterexample: with cutoff 10, the date-boundary check rejects the
issue's own `createdAt` (0 < 10), yet the issue_discussions bucket admits the
record because the user has a qualifying comment on it. -/
theorem cutoff_invariant_counterexample :
    oldIssue.createdAt < 10 ∧
      get_issue_discussions "alice" 10 [oldIssue]
        = [mkDiscussedIssue oldIssue false (userComments "alice" 10 oldIssue.comments)] := by
  constructor
  · decide
  · rfl

/-- C1 amended: every record-level `created_at` stored in the pr_reviews,
pr_discussion_threads and pull_requests buckets passes the cutoff, as does
every comment timestamp stored in commented_prs, pr_discussion_threads and
issue_discussions entries; commit records pass it provided the server
honoured the query's `since` argument (the code performs no local date check
on commits); an issue_discussions entry itself may stem from an issue whose
own creation time the check rejected (see the counterexample). -/
theorem cutoff_invariant_amended (username : String) (since : Int) :
    (∀ (prs : List ReviewPRNode), ∀ e ∈ get_user_pr_reviews username since prs,
        since ≤ e.created_at)
    ∧ (∀ (prs : List CommentPRNode), ∀ e ∈ get_prs_with_user_comments username since prs,
        ∀ c ∈ e.comments, since ≤ c.createdAt)
    ∧ (∀ (prs : List CommentPRNode), ∀ e ∈ get_user_pr_comment_threads username since prs,
        since ≤ e.created_at ∧ ∀ t ∈ e.discussion_threads, since ≤ t.comment.createdAt)
    ∧ (∀ (issues : List IssueNode), ∀ e ∈ get_issue_discussions username since issues,
        ∀ c ∈ e.comments, since ≤ c.createdAt)
    ∧ (∀ (feed : List (Except String (List WorkPR))) (prs : List WorkPR),
        (get_user_pull_requests username since feed).1 = Except.ok prs →
        ∀ pr ∈ prs, since ≤ pr.createdAt)
    ∧ (∀ (probe_noreply probe_literal : List (Except String (List Commit))),
        (∀ nodes, (Except.ok nodes ∈ probe_noreply ∨ Except.ok nodes ∈ probe_literal) →
          ∀ c ∈ nodes, since ≤ c.committedDate) →
        ∀ c ∈ get_user_commits probe_noreply probe_literal, since ≤ c.committedDate) := by
  refine ⟨?_, ?_, ?_, ?_, ?_, ?_⟩
  · intro prs e he
    rcases (mem_get_user_pr_reviews username since prs e).mp he with
      ⟨pr, _, _, review, _, hd, heq⟩
    rw [heq]
    exact hd
  · intro prs e he c hc
    rcases (mem_get_prs_with_user_comments username since prs e).mp he with
      ⟨pr, _, _, _, heq⟩
    rw [heq] at hc
    simp only [mkCommentedPR] at hc
    exact ((mem_userComments username since pr.comments c).mp hc).2.2
  · intro prs e he
    rcases (mem_get_user_pr_comment_threads username since prs e).mp he with
      ⟨pr, _, _, hd, _, heq⟩
    rw [heq]
    refine ⟨hd, ?_⟩
    intro t ht
    simp only [mkPRThreads] at ht
    exact ((mem_discussionThreads username since pr.comments t).mp ht).2.2.2
  · intro issues e he c hc
    rcases (mem_get_issue_discussions username since issues e).mp he with
      ⟨issue, _, _, heq⟩
    rw [heq] at hc
    simp only [mkDiscussedIssue] at hc
    exact ((mem_userComments username since issue.comments c).mp hc).2.2
  · intro feed prs h pr hpr
    exact (get_user_pull_requests_mem username since feed prs h pr hpr).2
  · intro probe_noreply probe_literal hall c hc
    have hmem : c ∈ collectProbe probe_noreply ++ collectProbe probe_literal :=
      (dedupCommits_sublist _ []).subset hc
    rcases List.mem_append.mp hmem with h | h
    · rcases mem_collectProbe probe_noreply c h with ⟨nodes, hn, hcn⟩
      exact hall nodes (Or.inl hn) c hcn
    · rcases mem_collectProbe probe_literal c h with ⟨nodes, hn, hcn⟩
      exact hall nodes (Or.inr hn) c hcn

/-- Witness for C1 (amended), applied to a concrete one-issue input: the
qualifying comment stored in the bucket passes the cutoff. -/
theorem cutoff_invariant_amended_witness :
    (10 : Int) ≤ ({ author := some "alice", body := "ping", createdAt := 15, url := "icu" } :
        Comment).createdAt :=
  (cutoff_invariant_amended "alice" 10).2.2.2.1 [oldIssue]
    (mkDiscussedIssue oldIssue false (userComments "alice" 10 oldIssue.comments))
    (by decide)
    { author := some "alice", body := "ping", createdAt := 15, url := "icu" }
    (by decide)

/-! ## C5 — exclusions from the collaborator set -/

def adversarialReviewEntry : ReviewedPR :=
  { pr_number := 11, pr_title := "t", pr_url := "u", pr_author := "alice",
    review_state := "APPROVED", review_body := "", review_url := "r",
    created_at := 5, review_comments := [], review_comments_count := 0 }

/-- C5 counterexample: the aggregator takes no username parameter and filters
only the "Unknown" sentinel: for target user "alice", an input bucket entry
whose pr_author is "alice" puts "alice" into the collaborator set. -/
theorem collaborator_excludes_user_counterexample :
    "alice" ∈ (get_collaboration_stats [adversarialReviewEntry] [] [] []).collaborator_list := by
  decide

/-- C5 amended: the "Unknown" sentinel is excluded from the collaborator set
for every set of input buckets; the target user's own login is excluded for
the buckets actually produced by the collection phase (the aggregator itself
performs no username filtering, so arbitrary buckets can defeat it). -/
theorem collaborator_set_exclusions (username : String) (since : Int)
    (rIn : List ReviewPRNode) (cIn tIn : List CommentPRNode) (iIn : List IssueNode)
    (b1 : List ReviewedPR) (b2 : List CommentedPR) (b3 : List PRThreads)
    (b4 : List DiscussedIssue) :
    username ∉ (get_collaboration_stats (get_user_pr_reviews username since rIn)
        (get_prs_with_user_comments username since cIn)
        (get_user_pr_comment_threads username since tIn)
        (get_issue_discussions username since iIn)).collaborator_list
    ∧ "Unknown" ∉ (get_collaboration_stats b1 b2 b3 b4).collaborator_list := by
  constructor
  · intro hmem
    rcases (mem_stats_collaborators _ _ _ _ username).mp hmem with h | h | h | h
    · rcases h with ⟨e, he, hne, hx⟩
      rcases (mem_get_user_pr_reviews username since rIn e).mp he with
        ⟨pr, _, hauth, review, _, _, heq⟩
      cases hpa : pr.author with
      | none =>
        rw [heq] at hne
        simp [mkReviewedPR, hpa] at hne
      | some y =>
        rw [heq] at hx
        simp only [mkReviewedPR, hpa, Option.getD_some] at hx
        exact hauth (by rw [hpa, hx])
    · rcases h with ⟨e, he, hne, hx⟩
      rcases (mem_get_prs_with_user_comments username since cIn e).mp he with
        ⟨pr, _, hauth, _, heq⟩
      cases hpa : pr.author with
      | none =>
        rw [heq] at hne
        simp [mkCommentedPR, hpa] at hne
      | some y =>
        rw [heq] at hx
        simp only [mkCommentedPR, hpa, Option.getD_some] at hx
        exact hauth (by rw [hpa, hx])
    · rcases h with ⟨e, he, t, ht, _, hx⟩
      rcases (mem_get_user_pr_comment_threads username since tIn e).mp he with
        ⟨pr, _, _, _, _, heq⟩
      rw [heq] at ht
      simp only [mkPRThreads] at ht
      exact ((mem_discussionThreads username since pr.comments t).mp ht).2.2.1 hx
    · rcases h with ⟨e, he, ⟨hne, hnauth⟩, hx⟩
      rcases (mem_get_issue_discussions username since iIn e).mp he with
        ⟨issue, _, _, heq⟩
      rw [heq] at hne hnauth hx
      simp only [mkDiscussedIssue] at hne hnauth hx
      cases hpa : issue.author with
      | none => simp [hpa] at hne
      | some y =>
        rw [hpa, Option.getD_some] at hx
        apply hnauth
        rw [hpa, hx]
        simp
  · intro hmem
    rcases (mem_stats_collaborators b1 b2 b3 b4 "Unknown").mp hmem with h | h | h | h
    · rcases h with ⟨e, _, hne, hx⟩; exact hne hx
    · rcases h with ⟨e, _, hne, hx⟩; exact hne hx
    · rcases h with ⟨e, _, t, _, hne, hx⟩; exact hne hx
    · rcases h with ⟨e, _, ⟨hne, _⟩, hx⟩; exact hne hx

/-- Witness for C5 (amended) at concrete inputs. -/
theorem collaborator_set_exclusions_witness :
    "bob" ∉ (get_collaboration_stats (get_user_pr_reviews "bob" 0 [])
        (get_prs_with_user_comments "bob" 0 [])
        (get_user_pr_comment_threads "bob" 0 [])
        (get_issue_discussions "bob" 0 [])).collaborator_list :=
  (collaborator_set_exclusions "bob" 0 [] [] [] [] [] [] [] []).1

/-! ## C6 — the aggregator is a deterministic pure function -/

def reviewEntryA : ReviewedPR :=
  { pr_number := 21, pr_title := "a", pr_url := "ua", pr_author := "bob",
    review_state := "APPROVED", review_body := "", review_url := "ra",
    created_at := 3, review_comments := [], review_comments_count := 2 }

def reviewEntryB : ReviewedPR :=
  { pr_number := 22, pr_title := "b", pr_url := "ub", pr_author := "carol",
    review_state := "COMMENTED", review_body := "", review_url := "rb",
    created_at := 4, review_comments := [], review_comments_count := 1 }

/-- C6: the aggregator is a pure function of the bucket contents — its output
is unchanged under any permutation of each bucket (in particular, invoking it
twice on the same bucket contents yields identical statistics). -/
theorem aggregator_deterministic (r1 r2 : List ReviewedPR) (c1 c2 : List CommentedPR)
    (t1 t2 : List PRThreads) (i1 i2 : List DiscussedIssue)
    (hr : r1.Perm r2) (hc : c1.Perm c2) (ht : t1.Perm t2) (hi : i1.Perm i2) :
    get_collaboration_stats r1 c1 t1 i1 = get_collaboration_stats r2 c2 t2 i2 := by
  have hset : (get_collaboration_stats r1 c1 t1 i1).collaborator_list
      = (get_collaboration_stats r2 c2 t2 i2).collaborator_list := by
    apply Finset.ext
    intro x
    rw [mem_stats_collaborators, mem_stats_collaborators]
    simp only [hr.mem_iff, hc.mem_iff, ht.mem_iff, hi.mem_iff]
  have hsum1 : (r1.map fun e => e.review_comments_count).sum
      = (r2.map fun e => e.review_comments_count).sum := (hr.map _).sum_eq
  have hsum2 : (c1.map fun e => e.comment_count).sum
      = (c2.map fun e => e.comment_count).sum := (hc.map _).sum_eq
  have hsum3 : (t1.map fun e => e.thread_count).sum
      = (t2.map fun e => e.thread_count).sum := (ht.map _).sum_eq
  have hsum4 : (i1.map fun e => e.comment_count).sum
      = (i2.map fun e => e.comment_count).sum := (hi.map _).sum_eq
  simp only [get_collaboration_stats, CollaborationStats.mk.injEq]
  refine ⟨?_, ?_, ?_, ?_, ?_, ?_, ?_, ?_, ?_, ?_⟩
  · exact congrArg Finset.card hset
  · exact hset
  · exact hr.length_eq
  · exact hsum1
  · exact hc.length_eq
  · exact hsum2
  · exact hsum3
  · exact hi.length_eq
  · exact hsum4
  · rw [hr.length_eq, hsum1, hsum2, hsum3, hsum4]

/-- Witness for C6: swapping the two entries of the pr_reviews bucket leaves
the statistics unchanged. -/
theorem aggregator_deterministic_witness :
    get_collaboration_stats [reviewEntryA, reviewEntryB] [] [] []
      = get_collaboration_stats [reviewEntryB, reviewEntryA] [] [] [] :=
  aggregator_deterministic [reviewEntryA, reviewEntryB] [reviewEntryB, reviewEntryA]
    [] [] [] [] [] [] (List.Perm.swap reviewEntryB reviewEntryA [])
    (List.Perm.refl []) (List.Perm.refl []) (List.Perm.refl [])

/-! ## C7 — the reviews-given classification rule -/

def d20240101 : Int := 20240101

def aliceReview2024 : Review :=
  { state := "APPROVED", body := "lgtm", createdAt := 20240201, url := "r1",
    commentNodes := [], commentsTotalCount := 0 }

def aliceReview2023 : Review :=
  { state := "COMMENTED", body := "old", createdAt := 20230601, url := "r2",
    commentNodes := [], commentsTotalCount := 0 }

def bobPR : ReviewPRNode :=
  { number := 1, title := "feature", url := "p1", createdAt := 20240115,
    author := some "bob", reviews := [aliceReview2024] }

def davePR : ReviewPRNode :=
  { number := 2, title := "old feature", url := "p2", createdAt := 20230520,
    author := some "dave", reviews := [aliceReview2023] }

/-- C7: a record enters the reviews-given bucket iff it is a review on a PR
whose author is not the target user and whose review timestamp passes the
date-boundary filter (both directions), and in the concrete scenario —
target "alice", cutoff 2024-01-01 — the 2024-02-01 review on bob's PR is the
only bucket entry while the 2023-06-01 review is excluded. -/
theorem reviews_given_rule (username : String) (since : Int) (prs : List ReviewPRNode) :
    (∀ e ∈ get_user_pr_reviews username since prs,
        ∃ pr ∈ prs, ¬ pr.author = some username ∧
          ∃ review ∈ pr.reviews, since ≤ review.createdAt ∧ e = mkReviewedPR pr review)
    ∧ (∀ pr ∈ prs, ¬ pr.author = some username →
        ∀ review ∈ pr.reviews, since ≤ review.createdAt →
          mkReviewedPR pr review ∈ get_user_pr_reviews username since prs)
    ∧ get_user_pr_reviews "alice" d20240101 [bobPR, davePR]
        = [mkReviewedPR bobPR aliceReview2024] := by
  refine ⟨?_, ?_, ?_⟩
  · intro e he
    exact (mem_get_user_pr_reviews username since prs e).mp he
  · intro pr hpr h review hrev hd
    exact (mem_get_user_pr_reviews username since prs _).mpr ⟨pr, hpr, h, review, hrev, hd, rfl⟩
  · rfl

/-- Witness for C7: the qualifying review record is produced. -/
theorem reviews_given_rule_witness :
    mkReviewedPR bobPR aliceReview2024 ∈ get_user_pr_reviews "alice" d20240101 [bobPR, davePR] :=
  (reviews_given_rule "alice" d20240101 [bobPR, davePR]).2.1 bobPR (by decide) (by decide)
    aliceReview2024 (by decide) (by decide)

/-! ## C8 — discussion-on-own-work vs. comments-given exclusivity -/

def carolComment : Comment :=
  { author := some "carol", body := "nice", createdAt := 20240310, url := "c1" }

def alicePR : CommentPRNode :=
  { number := 3, title := "alice work", url := "p3", createdAt := 20240301,
    author := some "alice", comments := [carolComment] }

/-- C8: a comment by someone else on a PR the target user authored, with both
timestamps in the window, appears in the discussion-on-own-work bucket and
never appears in the comments-given bucket. -/
theorem own_pr_discussion_exclusive (username a : String) (since : Int)
    (prs : List CommentPRNode) (pr : CommentPRNode) (c : Comment)
    (hpr : pr ∈ prs) (hauth : pr.author = some username) (hprd : since ≤ pr.createdAt)
    (hc : c ∈ pr.comments) (hca : c.author = some a) (hne : a ≠ username)
    (hcd : since ≤ c.createdAt) :
    (∃ e ∈ get_user_pr_comment_threads username since prs,
        ({ comment := c, comment_author := a } : ThreadEntry) ∈ e.discussion_threads)
    ∧ ∀ e ∈ get_prs_with_user_comments username since prs, c ∉ e.comments := by
  constructor
  · have ht : ({ comment := c, comment_author := a } : ThreadEntry)
        ∈ discussionThreads username since pr.comments :=
      (mem_discussionThreads username since pr.comments _).mpr ⟨hc, hca, hne, hcd⟩
    have hnil : discussionThreads username since pr.comments ≠ [] := by
      intro h
      rw [h] at ht
      simp at ht
    refine ⟨mkPRThreads pr (discussionThreads username since pr.comments), ?_, ht⟩
    exact (mem_get_user_pr_comment_threads username since prs _).mpr
      ⟨pr, hpr, hauth, hprd, hnil, rfl⟩
  · intro e he hmem
    rcases (mem_get_prs_with_user_comments username since prs e).mp he with
      ⟨q, _, _, _, heq⟩
    rw [heq] at hmem
    simp only [mkCommentedPR] at hmem
    have huser : c.author = some username :=
      ((mem_userComments username since q.comments c).mp hmem).2.1
    rw [hca] at huser
    exact hne (Option.some.inj huser)

/-- Witness for C8: carol's in-window comment on alice's PR lands in the
discussion bucket and in no comments-given entry. -/
theorem own_pr_discussion_exclusive_witness :
    (∃ e ∈ get_user_pr_comment_threads "alice" d20240101 [alicePR],
        ({ comment := carolComment, comment_author := "carol" } : ThreadEntry)
          ∈ e.discussion_threads)
    ∧ ∀ e ∈ get_prs_with_user_comments "alice" d20240101 [alicePR],
        carolComment ∉ e.comments :=
  own_pr_discussion_exclusive "alice" "carol" d20240101 [alicePR] alicePR carolComment
    (by decide) (by decide) (by decide) (by decide) (by decide) (by decide) (by decide)

/-! ## C9 — the issue-participation rule -/

def danaOldIssue : IssueNode :=
  { number := 9, title := "archive", url := "i9", createdAt := 50, author := some "erin",
    comments := [{ author := some "dana", body := "still relevant", createdAt := 120, url := "c9" }] }

/-- C9: an entry is placed in the issue-participation bucket iff the target
user authored the issue with creation time passing the cutoff, or the issue
has at least one comment by the user passing the cutoff; consequently the
concrete issue created at 50 < 100 is included for user "dana" because of
dana's comment at 120. -/
theorem issue_participation_rule (username : String) (since : Int) (issue : IssueNode) :
    ((get_issue_discussions username since [issue]).length = 1 ↔
      (issue.author = some username ∧ since ≤ issue.createdAt) ∨
        ∃ c ∈ issue.comments, c.author = some username ∧ since ≤ c.createdAt)
    ∧ (get_issue_discussions "dana" 100 [danaOldIssue]).length = 1
    ∧ danaOldIssue.createdAt < 100 := by
  refine ⟨?_, by decide, by decide⟩
  unfold get_issue_discussions
  simp only [List.filterMap_cons, List.filterMap_nil]
  by_cases hcond : ((decide (issue.author = some username) = true ∧ since ≤ issue.createdAt) ∨
      ¬ (userComments username since issue.comments).isEmpty = true)
  · rw [if_pos hcond]
    simp only [List.length_cons, List.length_nil, Nat.zero_add]
    constructor
    · intro _
      rcases hcond with ⟨hdec, hd⟩ | hemp
      · exact Or.inl ⟨of_decide_eq_true hdec, hd⟩
      · right
        have hne : userComments username since issue.comments ≠ [] :=
          fun h0 => hemp (by rw [h0]; rfl)
        rcases List.exists_mem_of_ne_nil _ hne with ⟨c, hcm⟩
        rcases (mem_userComments username since issue.comments c).mp hcm with ⟨hm, ha, hd⟩
        exact ⟨c, hm, ha, hd⟩
    · intro _
      trivial
  · rw [if_neg hcond]
    simp only [List.length_nil]
    constructor
    · intro h0
      exact absurd h0 (by decide)
    · intro hrhs
      exfalso
      apply hcond
      rcases hrhs with ⟨ha, hd⟩ | ⟨c, hcm, hca, hcd⟩
      · exact Or.inl ⟨decide_eq_true ha, hd⟩
      · right
        intro hemp
        have hcu : c ∈ userComments username since issue.comments :=
          (mem_userComments username since issue.comments c).mpr ⟨hcm, hca, hcd⟩
        rw [List.isEmpty_iff.mp hemp] at hcu
        simp at hcu

/-! ## C10 — review_comments_count is the server totalCount -/

def bigCountReview : Review :=
  { state := "CHANGES_REQUESTED", body := "many notes", createdAt := 5, url := "r45",
    commentNodes :=
      [{ body := "n1", path := "a.py", position := 1, createdAt := 6 },
       { body := "n2", path := "b.py", position := 2, createdAt := 7 }],
    commentsTotalCount := 45 }

def bigCountPR : ReviewPRNode :=
  { number := 4, title := "big", url := "p4", createdAt := 4, author := some "erin",
    reviews := [bigCountReview] }

/-- C10: every reviews-given entry carries the server-reported
`comments.totalCount` as `review_comments_count` and the embedded node list
as `review_comments` (so the count can exceed the list's length — witnessed
concretely by 45 vs 2), and the aggregate `total_review_comments` sums these
counts. -/
theorem review_comments_count_from_totalCount (username : String) (since : Int)
    (prs : List ReviewPRNode) :
    (∀ e ∈ get_user_pr_reviews username since prs,
        ∃ pr ∈ prs, ∃ review ∈ pr.reviews,
          e.review_comments_count = review.commentsTotalCount ∧
          e.review_comments = review.commentNodes)
    ∧ (get_collaboration_stats (get_user_pr_reviews username since prs) [] [] []).total_review_comments
        = ((get_user_pr_reviews username since prs).map fun e => e.review_comments_count).sum
    ∧ (get_user_pr_reviews "alice" 0 [bigCountPR] = [mkReviewedPR bigCountPR bigCountReview]
        ∧ (mkReviewedPR bigCountPR bigCountReview).review_comments_count = 45
        ∧ (mkReviewedPR bigCountPR bigCountReview).review_comments.length = 2
        ∧ (get_collaboration_stats (get_user_pr_reviews "alice" 0 [bigCountPR])
            [] [] []).total_review_comments = 45) := by
  refine ⟨?_, rfl, rfl, rfl, rfl, rfl⟩
  intro e he
  rcases (mem_get_user_pr_reviews username since prs e).mp he with
    ⟨pr, hpr, _, review, hrev, _, heq⟩
  exact ⟨pr, hpr, review, hrev, by rw [heq]; exact ⟨rfl, rfl⟩⟩

/-- Witness for C10: the concrete bucket entry reports 45 server-side review
comments while embedding only the 2 fetched nodes. -/
theorem review_comments_count_from_totalCount_witness :
    ∃ pr ∈ [bigCountPR], ∃ review ∈ pr.reviews,
      (mkReviewedPR bigCountPR bigCountReview).review_comments_count
          = review.commentsTotalCount ∧
      (mkReviewedPR bigCountPR bigCountReview).review_comments = review.commentNodes :=
  (review_comments_count_from_totalCount "alice" 0 [bigCountPR]).1
    (mkReviewedPR bigCountPR bigCountReview) (by decide)

end DevTrail
